import Mathlib

/-!
# Verification of the resume-match analysis engine

Shallow embedding of the analysis pipeline of `resume-match-api`:
the keyword analyzer (`app/services/keyword_analyzer.py`), the ATS
compatibility checker (`app/services/ats_checker.py`), the resume parser's
contact/section extraction (`app/services/resume_parser.py`), and the
composite orchestrator (`app/routers/analysis.py`).

Modelling conventions:
* Python strings are Lean `String`/`List Char`; `str.lower`, `str.strip` and
  the regex classes `\w`, `\s` are modelled over ASCII (the Python originals
  are Unicode-aware; every string the claims quantify over is ASCII).
* Python floats are modelled with exact `Nat`/`Int`/`Rat` arithmetic.  The two
  places the code computes with floats bound the operands enough that the
  float result is the correctly rounded image of the exact value, so the exact
  model is faithful: `int((matched/total)*100)` equals `matched*100/total` in
  truncated integer division for all `0 ≤ matched ≤ total ≤ 20`, and
  `round(k*0.6 + a*0.4, 2)` for integers `0 ≤ k, a ≤ 100` is the double
  nearest to the exact rational `(6k+4a)/10` (which has one decimal digit, so
  the half-even tie rule is never exercised).
* The statistical (scikit-learn TF-IDF) and entity (spaCy NER) branches of
  keyword extraction call external libraries; they are opaque parameters of
  the embedding, and everything proved about extraction holds for every
  behaviour of those branches.
-/

namespace ResumeMatch

/-! ## Text primitives -/

/-- ASCII model of Python's whitespace class (`\s`, `str.strip`). -/
def isWS (c : Char) : Bool := c.isWhitespace

/-- Python `str.lower()` (ASCII model). -/
def lowerStr (s : String) : String := String.mk (s.data.map Char.toLower)

/-- Strip leading and trailing whitespace from a character list
(Python `str.strip()`). -/
def trimChars (l : List Char) : List Char :=
  ((l.dropWhile isWS).reverse.dropWhile isWS).reverse

/-- Python `str.strip()`. -/
def stripStr (s : String) : String := String.mk (trimChars s.data)

/-- Does `sub` occur in `t` starting at index `i`? -/
def containsAt (sub t : List Char) (i : Nat) : Bool :=
  sub.isPrefixOf (t.drop i)

/-- Python's substring test `sub in t`. -/
def containsSub (t sub : List Char) : Bool :=
  (List.range (t.length + 1)).any (containsAt sub t)

/-! ## ATS checker (`app/services/ats_checker.py`)

Issues are the dictionaries built by `ATSChecker`: section issues carry a
`section` key, formatting issues an `issue` key; both carry `type`,
`severity`, `message`, `recommendation`.  Severities stay strings, exactly as
in the Python source. -/

structure ATSIssue where
  type : String
  severity : String
  sectionName : Option String := none
  issue : Option String := none
  message : String
  recommendation : String
deriving DecidableEq, Repr

/-- The parsed-resume dictionary as consumed by the checker: `raw_text` plus a
`sections` dictionary (association list, insertion-ordered like a Python
dict). -/
structure ParsedResume where
  raw_text : String := ""
  sections : List (String × List String) := []
deriving DecidableEq, Repr

/-- Python `sections.get(key, [])`. -/
def dictGetList (d : List (String × List String)) (k : String) : List String :=
  ((d.find? (fun p => p.1 == k)).map Prod.snd).getD []

/-- Python `str.capitalize()`. -/
def capitalize (s : String) : String :=
  match s.data with
  | [] => ""
  | c :: cs => String.mk (c.toUpper :: cs.map Char.toLower)

/-- One row of the checker's `critical_sections` table. -/
structure SectionRule where
  name : String
  severity : String
  message : String
  recommendation : String

/-- The `experience` row of the checker's `critical_sections` table. -/
def experienceRule : SectionRule :=
  { name := "experience", severity := "high",
    message := "Missing 'Experience' section",
    recommendation := "Add a detailed work experience section with job titles, companies, dates, and key achievements" }

/-- The `education` row of the checker's `critical_sections` table. -/
def educationRule : SectionRule :=
  { name := "education", severity := "high",
    message := "Missing 'Education' section",
    recommendation := "Add an education section with degrees, institutions, and graduation dates" }

/-- The `skills` row of the checker's `critical_sections` table. -/
def skillsRule : SectionRule :=
  { name := "skills", severity := "medium",
    message := "Missing 'Skills' section",
    recommendation := "Add a skills section listing relevant technical and soft skills" }

/-- The `summary` row of the checker's `critical_sections` table. -/
def summaryRule : SectionRule :=
  { name := "summary", severity := "low",
    message := "Missing 'Summary' or 'Objective' section",
    recommendation := "Consider adding a professional summary or career objective at the top of your resume" }

/-- The `critical_sections` table of `ATSChecker._check_sections`, in the
source's (Python 3.7+ insertion-) order. -/
def critical_sections : List SectionRule :=
  [experienceRule, educationRule, skillsRule, summaryRule]

/-- The issue dictionary appended for a missing section. -/
def sectionIssueOf (rule : SectionRule) : ATSIssue :=
  { type := "missing_section", severity := rule.severity,
    sectionName := some (capitalize rule.name),
    message := rule.message, recommendation := rule.recommendation }

/-- `ATSChecker._check_sections`: one issue per critical section whose content
is absent or empty, in table order. -/
def _check_sections (parsed_resume : ParsedResume) : List ATSIssue :=
  critical_sections.filterMap fun rule =>
    let section_content := dictGetList parsed_resume.sections rule.name
    if section_content = [] then some (sectionIssueOf rule) else none

/-- The glyph class of the checker's `special_chars_pattern`. -/
def special_chars : List Char :=
  ['✓', '✔', '✗', '✘', '●', '•', '○', '◦', '▪', '▫', '◾', '◽', '⬛', '⬜']

/-- `re.search` of the special-character class. -/
def hasSpecialChar (t : List Char) : Bool := t.any (fun c => special_chars.contains c)

/-- The segment between two pipes decomposes as `\s* .* \s*` (with `.` not
matching a newline) iff after stripping maximal whitespace at both ends no
newline remains. -/
def tableSegmentOk (seg : List Char) : Bool := !(trimChars seg).contains '\n'

/-- `re.search(r"\|\s*.*\s*\|", text)`: two pipes whose in-between matches
`\s*.*\s*`. -/
def hasPipePair (t : List Char) : Bool :=
  (List.range t.length).any fun i =>
    t.getD i ' ' == '|' && (List.range t.length).any fun j =>
      decide (i < j) && t.getD j ' ' == '|' &&
        tableSegmentOk ((t.drop (i + 1)).take (j - i - 1))

/-- The checker's `image_keywords` list. -/
def image_keywords : List String :=
  ["image", "photo", "picture", "graphic", ".jpg", ".png", ".jpeg", ".gif"]

/-- `re.search(r"\s{3,}", text)`: three consecutive whitespace characters. -/
def hasTripleWS (t : List Char) : Bool :=
  (List.range t.length).any fun i =>
    decide (((t.drop i).take 3).length = 3) && ((t.drop i).take 3).all isWS

/-- Formatting issue: special characters (medium). -/
def specialCharsIssue : ATSIssue :=
  { type := "formatting_issue", severity := "medium", issue := some "special_characters",
    message := "Special characters or bullets detected in resume",
    recommendation := "Use simple text for section headings (e.g., 'EXPERIENCE' instead of '● Experience')" }

/-- Formatting issue: tables/columns (low). -/
def tableColumnsIssue : ATSIssue :=
  { type := "formatting_issue", severity := "low", issue := some "table_columns",
    message := "Resume may contain tables or columns",
    recommendation := "Avoid tables and multi-column layouts; use simple single-column format for better ATS compatibility" }

/-- Formatting issue: images/graphics (medium). -/
def imagesGraphicsIssue : ATSIssue :=
  { type := "formatting_issue", severity := "medium", issue := some "images_graphics",
    message := "Resume may contain images or graphics",
    recommendation := "Remove images, photos, and graphics; ATS systems cannot parse visual content" }

/-- Formatting issue: headers/footers (low). -/
def headerFooterIssue : ATSIssue :=
  { type := "formatting_issue", severity := "low", issue := some "header_footer",
    message := "Resume may have headers or footers",
    recommendation := "Avoid putting important information in headers or footers; ATS may not parse them correctly" }

/-- Formatting issue: complex spacing (low). -/
def complexSpacingIssue : ATSIssue :=
  { type := "formatting_issue", severity := "low", issue := some "complex_spacing",
    message := "Resume may have complex spacing or formatting",
    recommendation := "Use consistent single spaces between words; avoid excessive spacing for alignment" }

/-- `ATSChecker._check_formatting_issues`: the five fixed rules evaluated in
order over the raw text (empty text short-circuits to no issues). -/
def _check_formatting_issues (text : String) : List ATSIssue :=
  if text = "" then []
  else
    let t := text.data
    let text_lower := (lowerStr text).data
    (if hasSpecialChar t then [specialCharsIssue] else []) ++
    (if hasPipePair t || containsSub text_lower "table".data ||
        containsSub text_lower "column".data then [tableColumnsIssue] else []) ++
    (if image_keywords.any (fun k => containsSub text_lower k.data) then
      [imagesGraphicsIssue] else []) ++
    (if ["header", "footer"].any (fun k => containsSub text_lower k.data) then
      [headerFooterIssue] else []) ++
    (if hasTripleWS t then [complexSpacingIssue] else [])

/-- Per-issue deduction of `ATSChecker._calculate_ats_score` (an unknown
severity string deducts nothing, exactly as the if/elif chain does). -/
def severityDeduction (severity : String) : Int :=
  if severity = "high" then 10
  else if severity = "medium" then 5
  else if severity = "low" then 2
  else 0

/-- `ATSChecker._calculate_ats_score`: start at 100, subtract per issue,
clamp below at 0. -/
def _calculate_ats_score (issues : List ATSIssue) : Int :=
  max 0 (issues.foldl (fun score issue => score - severityDeduction issue.severity) 100)

/-- The report returned by `ATSChecker.check_ats_compatibility`. -/
structure ATSReport where
  ats_score : Int
  issues : List ATSIssue
  issue_count : Nat
  recommendations : List String
  passed : Bool
deriving DecidableEq, Repr

/-- `ATSChecker.check_ats_compatibility`. -/
def check_ats_compatibility (parsed_resume : ParsedResume) : ATSReport :=
  let section_issues := _check_sections parsed_resume
  let raw_text := parsed_resume.raw_text
  let formatting_issues := _check_formatting_issues raw_text
  let all_issues := section_issues ++ formatting_issues
  let ats_score := _calculate_ats_score all_issues
  let recommendations := all_issues.map (·.recommendation)
  let passed := decide (70 ≤ ats_score)
  { ats_score := ats_score, issues := all_issues, issue_count := all_issues.length,
    recommendations := recommendations, passed := passed }

/-! ## Keyword analyzer (`app/services/keyword_analyzer.py`)

`KeywordAnalyzer` combines a scikit-learn TF-IDF branch and a spaCy NER
branch; both call external libraries and are modelled as opaque behaviours.
Everything proved below holds for every behaviour of the branches. -/

/-- Opaque behaviours of the two extraction branches:
`_tfidf_keywords(text, top_n)` (scored, score-descending) and
`_spacy_keywords(text)`. -/
structure KeywordAnalyzer where
  tfidf_keywords : String → Nat → List (String × ℚ)
  spacy_keywords : String → List String

/-- The two accumulation loops of `extract_keywords`: append keywords not yet
in `seen`, first-occurrence order. -/
def addUnseen (seen : List String) : List String → List String
  | [] => []
  | k :: ks => if k ∈ seen then addUnseen seen ks else k :: addUnseen (k :: seen) ks

/-- `KeywordAnalyzer.extract_keywords`: empty/whitespace-only text returns
`[]`; otherwise merge the TF-IDF keywords (first) with the NER keywords,
deduplicating, and keep the first `top_n`. -/
def extract_keywords (A : KeywordAnalyzer) (text : String) (top_n : Nat) : List String :=
  if text = "" || stripStr text = "" then []
  else
    let tfidf_keywords := A.tfidf_keywords text top_n
    let spacy_keywords := A.spacy_keywords text
    let combined := addUnseen [] (tfidf_keywords.map Prod.fst ++ spacy_keywords)
    combined.take top_n

/-! ### Word-boundary regex matching

`calculate_match_score` tests each keyword with
`re.search(r"\b" + re.escape(keyword.lower()) + r"\b", resume_lower)`.
`re.escape` makes the keyword literal, so the pattern is: a word boundary,
the keyword verbatim, a word boundary.  `\b` holds at a position iff exactly
one of the adjacent characters is a word character (out-of-bounds counts as
non-word). -/

/-- Python's `\w` class (ASCII model): letters, digits, underscore. -/
def isWordChar (c : Char) : Bool := c.isAlphanum || c == '_'

/-- Word-character test on an optional character (out of bounds = non-word). -/
def optIsWordChar : Option Char → Bool
  | some c => isWordChar c
  | none => false

/-- Is the character left of position `i` a word character? -/
def leftIsWord (t : List Char) (i : Nat) : Bool :=
  match i with
  | 0 => false
  | j + 1 => optIsWordChar t[j]?

/-- `\b` holds at position `i` of `t`. -/
def boundaryAt (t : List Char) (i : Nat) : Bool :=
  leftIsWord t i != optIsWordChar t[i]?

/-- The pattern `\b kw \b` matches at position `i` of `t`. -/
def wbMatchAt (kw t : List Char) (i : Nat) : Bool :=
  kw.isPrefixOf (t.drop i) && boundaryAt t i && boundaryAt t (i + kw.length)

/-- `re.search(r"\b" + re.escape(kw) + r"\b", t)` succeeds. -/
def wordBoundarySearch (kw t : List Char) : Bool :=
  (List.range (t.length + 1)).any (wbMatchAt kw t)

/-- The keyword-presence test of `calculate_match_score` (the keyword is
lowercased before the search, the resume text by the caller). -/
def keywordPresent (resume_lower : List Char) (keyword : String) : Bool :=
  wordBoundarySearch (lowerStr keyword).data resume_lower

/-- The dictionary returned by `calculate_match_score`. -/
structure MatchResult where
  score : Nat
  matched_keywords : List String
  missing_keywords : List String
  total_keywords : Nat
  matched_count : Nat
  missing_count : Nat
deriving DecidableEq, Repr

/-- The degenerate result returned for empty inputs or empty extraction. -/
def zeroMatchResult : MatchResult :=
  { score := 0, matched_keywords := [], missing_keywords := [],
    total_keywords := 0, matched_count := 0, missing_count := 0 }

/-- `KeywordAnalyzer.calculate_match_score`. -/
def calculate_match_score (A : KeywordAnalyzer) (resume_text job_description : String) :
    MatchResult :=
  if resume_text = "" || job_description = "" then zeroMatchResult
  else
    let job_keywords := extract_keywords A job_description 20
    if job_keywords = [] then zeroMatchResult
    else
      let resume_lower := (lowerStr resume_text).data
      let matched := job_keywords.filter (fun kw => keywordPresent resume_lower kw)
      let missing := job_keywords.filter (fun kw => !keywordPresent resume_lower kw)
      let total_keywords := job_keywords.length
      let matched_count := matched.length
      let score := if 0 < total_keywords then matched_count * 100 / total_keywords else 0
      { score := score, matched_keywords := matched, missing_keywords := missing,
        total_keywords := total_keywords, matched_count := matched_count,
        missing_count := missing.length }

/-- A `KeywordAnalyzer` with fixed branch outputs, for concrete evaluation. -/
def stubAnalyzer (tf : List (String × ℚ)) (sp : List String) : KeywordAnalyzer :=
  ⟨fun _ _ => tf, fun _ => sp⟩

example :
    calculate_match_score (stubAnalyzer [("python", 1)] ["java"])
      "Python and JavaScript engineer" "job text" =
    { score := 50, matched_keywords := ["python"], missing_keywords := ["java"],
      total_keywords := 2, matched_count := 1, missing_count := 1 } := by
  decide

/-! ## Resume parser (`app/services/resume_parser.py`)

### Contact extraction

`_extract_contact_info` runs three independent `re.search` passes.  Each
pattern is modelled by an anchored matcher `t → i → Option length` that
reproduces the engine's leftmost, greedy-with-backtracking behaviour for that
concrete pattern, plus a scan that returns the first position (and its match)
at which the matcher succeeds — exactly `re.search`'s strategy. -/

/-- Length of the leading run of `p`-characters. -/
def runLen (p : Char → Bool) : List Char → Nat
  | [] => 0
  | c :: cs => if p c then runLen p cs + 1 else 0

/-- Length of the maximal `p`-run of `t` starting at index `i`. -/
def maxRunAt (p : Char → Bool) (t : List Char) (i : Nat) : Nat :=
  runLen p (t.drop i)

/-- `[m, m-1, …, 1]`: the candidate lengths of a greedy `X+`, preferred
(engine) order. -/
def descCands (m : Nat) : List Nat := (List.range m).map (fun j => m - j)

/-- `[m, m-1, …, 2]`: the candidate lengths of a greedy `X{2,}`. -/
def descCandsMin2 (m : Nat) : List Nat := (List.range (m - 1)).map (fun j => m - j)

/-- The class `[A-Za-z0-9._%+-]` (email local part). -/
def isLocalChar (c : Char) : Bool :=
  c.isAlphanum || c == '.' || c == '_' || c == '%' || c == '+' || c == '-'

/-- The class `[A-Za-z0-9.-]` (email domain). -/
def isDomainChar (c : Char) : Bool := c.isAlphanum || c == '.' || c == '-'

/-- The class `[A-Z|a-z]` of the email pattern — it literally contains the
pipe character. -/
def isTldChar (c : Char) : Bool := c.isAlpha || c == '|'

/-- The email pattern `\b[A-Za-z0-9._%+-]+@[A-Za-z0-9.-]+\.[A-Z|a-z]{2,}\b`
matched at position `i`, following the engine's preference order; returns the
match length. -/
def emailMatchAt (t : List Char) (i : Nat) : Option Nat :=
  if boundaryAt t i then
    (descCands (maxRunAt isLocalChar t i)).findSome? fun n =>
      if t[i + n]? == some '@' then
        let q := i + n + 1
        (descCands (maxRunAt isDomainChar t q)).findSome? fun d =>
          if t[q + d]? == some '.' then
            let r := q + d + 1
            (descCandsMin2 (maxRunAt isTldChar t r)).findSome? fun s =>
              if boundaryAt t (r + s) then some (r + s - i) else none
          else none
      else none
  else none

/-- The class `[-.\s]` of the phone pattern. -/
def isSepChar (c : Char) : Bool := c == '-' || c == '.' || isWS c

/-- `\d{cnt}` at position `i`: the position after, when `cnt` digits follow. -/
def exactDigits (t : List Char) (i cnt : Nat) : Option Nat :=
  let seg := (t.drop i).take cnt
  if seg.length = cnt && seg.all Char.isDigit then some (i + cnt) else none

/-- Candidate next positions of a greedy `c?`, preferred order. -/
def optCharCands (c : Char) (t : List Char) (i : Nat) : List Nat :=
  (if t[i]? == some c then [i + 1] else []) ++ [i]

/-- Candidate next positions of a greedy `[class]?`, preferred order. -/
def optClassCands (p : Char → Bool) (t : List Char) (i : Nat) : List Nat :=
  (match t[i]? with
   | some c => if p c then [i + 1] else []
   | none => []) ++ [i]

/-- Candidate next positions of a greedy `\d{1,3}`, preferred order. -/
def digitsUpTo3 (t : List Char) (i : Nat) : List Nat :=
  [3, 2, 1].filterMap fun n => exactDigits t i n

/-- Candidate next positions of the optional group `(\+?\d{1,3}[-.\s]?)?` of
the phone pattern, preferred order (group taken first, then skipped). -/
def phoneGroup1Cands (t : List Char) (i : Nat) : List Nat :=
  ((optCharCands '+' t i).flatMap fun j =>
    (digitsUpTo3 t j).flatMap fun k => optClassCands isSepChar t k) ++ [i]

/-- The phone pattern `(\+?\d{1,3}[-.\s]?)?\(?\d{3}\)?[-.\s]?\d{3}[-.\s]?\d{4}`
matched at position `i`, following the engine's preference order; returns the
match length. -/
def phoneMatchAt (t : List Char) (i : Nat) : Option Nat :=
  (phoneGroup1Cands t i).findSome? fun j =>
    (optCharCands '(' t j).findSome? fun k =>
      (exactDigits t k 3).bind fun l =>
        (optCharCands ')' t l).findSome? fun m =>
          (optClassCands isSepChar t m).findSome? fun n =>
            (exactDigits t n 3).bind fun o =>
              (optClassCands isSepChar t o).findSome? fun p =>
                (exactDigits t p 4).map fun q => q - i

/-- `[\w-]` (the LinkedIn profile slug class). -/
def isSlugChar (c : Char) : Bool := isWordChar c || c == '-'

/-- The literal part of the LinkedIn pattern. -/
def linkedinLit : List Char := "linkedin.com/in/".data

/-- Case-insensitive literal match of `pat` at position `i` of `t`
(`re.IGNORECASE`; `pat` is lowercase). -/
def ciAt (pat t : List Char) (i : Nat) : Bool :=
  ((t.drop i).take pat.length).map Char.toLower == pat

/-- The LinkedIn pattern `linkedin\.com/in/[\w-]+` (with `re.IGNORECASE`)
matched at position `i`; returns the match length. -/
def linkedinMatchAt (t : List Char) (i : Nat) : Option Nat :=
  if ciAt linkedinLit t i then
    let m := maxRunAt isSlugChar t (i + linkedinLit.length)
    if 0 < m then some (linkedinLit.length + m) else none
  else none

/-- `re.search`'s scan: try the anchored matcher at `i`, `i+1`, … (`fuel`
further positions); return the first success with its position. -/
def searchFrom (f : Nat → Option Nat) : Nat → Nat → Option (Nat × Nat)
  | i, 0 =>
    match f i with
    | some v => some (i, v)
    | none => none
  | i, fuel + 1 =>
    match f i with
    | some v => some (i, v)
    | none => searchFrom f (i + 1) fuel

/-- `re.search(pattern, t)` for an anchored matcher `f`: scan positions
`0 … t.length`. -/
def reSearch (f : List Char → Nat → Option Nat) (t : List Char) : Option (Nat × Nat) :=
  searchFrom (f t) 0 t.length

/-- `match.group(0)`: the matched substring. -/
def substrOf (t : List Char) (i len : Nat) : String :=
  String.mk ((t.drop i).take len)

/-- The contact dictionary: each key optional, first match only. -/
structure ContactInfo where
  email : Option String := none
  phone : Option String := none
  linkedin : Option String := none
deriving DecidableEq, Repr

/-- `ResumeParser._extract_contact_info`: three independent regex passes. -/
def _extract_contact_info (text : String) : ContactInfo :=
  let t := text.data
  { email := (reSearch emailMatchAt t).map fun p => substrOf t p.1 p.2,
    phone := (reSearch phoneMatchAt t).map fun p => substrOf t p.1 p.2,
    linkedin := (reSearch linkedinMatchAt t).map fun p => substrOf t p.1 p.2 }

example :
    _extract_contact_info
      "Reach john.doe@example.com or 123-456-7890 at linkedin.com/in/john-doe now" =
    { email := some "john.doe@example.com", phone := some "123-456-7890",
      linkedin := some "linkedin.com/in/john-doe" } := by
  decide

/-! ### Section identification (`ResumeParser._identify_sections`)

A forward line scan: heading lines (matched case-insensitively against fixed
pattern sets) flush the accumulated block into the previous section and open a
new one; non-blank non-heading lines accumulate; lines before the first
heading are dropped.  The produced dictionary has exactly the fixed key set
`experience`/`education`/`skills`. -/

inductive SectionKey
  | experience
  | education
  | skills
deriving DecidableEq, Repr

/-- The extractor's sections dictionary: fixed key set, initialised empty. -/
structure Sections3 where
  experience : List String := []
  education : List String := []
  skills : List String := []
deriving DecidableEq, Repr

/-- `re.search(a + r"\s+" + b, t)`: `a`, then one or more whitespace
characters, then `b`, somewhere in `t`. -/
def hasGapPattern (a b t : List Char) : Bool :=
  (List.range (t.length + 1)).any fun i =>
    containsAt a t i && (List.range (t.length + 1)).any fun n =>
      decide (0 < n) &&
      (let mid := (t.drop (i + a.length)).take n
       decide (mid.length = n) && mid.all isWS) &&
      containsAt b t (i + a.length + n)

/-- The `experience_patterns` test of the line scan. -/
def isExperienceHeading (l : List Char) : Bool :=
  hasGapPattern "work".data "experience".data l ||
  hasGapPattern "professional".data "experience".data l ||
  containsSub l "experience".data ||
  hasGapPattern "employment".data "history".data l

/-- The `education_patterns` test of the line scan. -/
def isEducationHeading (l : List Char) : Bool :=
  containsSub l "education".data || containsSub l "academic".data ||
  containsSub l "qualifications".data

/-- The `skills_patterns` test of the line scan. -/
def isSkillsHeading (l : List Char) : Bool :=
  containsSub l "skills".data ||
  hasGapPattern "technical".data "skills".data l ||
  hasGapPattern "core".data "competencies".data l

/-- Scan state: accumulated sections, the open section, the open block. -/
structure ScanState where
  sections : Sections3
  current : Option SectionKey
  content : List String

/-- Append a finished block to a section's sequence. -/
def appendSection (s : Sections3) (k : SectionKey) (block : String) : Sections3 :=
  match k with
  | .experience => { s with experience := s.experience ++ [block] }
  | .education => { s with education := s.education ++ [block] }
  | .skills => { s with skills := s.skills ++ [block] }

/-- Flush the open block (`"\n".join(section_content)`) into the open
section, when both exist. -/
def flushState (st : ScanState) : Sections3 :=
  match st.current with
  | some k =>
    if st.content = [] then st.sections
    else appendSection st.sections k (String.intercalate "\n" st.content)
  | none => st.sections

/-- One line of the scan of `_identify_sections`. -/
def stepLine (st : ScanState) (line : String) : ScanState :=
  let line_lower := (stripStr (lowerStr line)).data
  if isExperienceHeading line_lower then
    { sections := flushState st, current := some .experience, content := [] }
  else if isEducationHeading line_lower then
    { sections := flushState st, current := some .education, content := [] }
  else if isSkillsHeading line_lower then
    { sections := flushState st, current := some .skills, content := [] }
  else if st.current.isSome && stripStr line != "" then
    { st with content := st.content ++ [stripStr line] }
  else st

/-- Python `text.split("\n")`. -/
def splitOnChar (sep : Char) (l : List Char) : List (List Char) :=
  l.foldr
    (fun c acc =>
      match acc with
      | [] => [[c]]
      | h :: rest => if c == sep then [] :: h :: rest else (c :: h) :: rest)
    [[]]

/-- `ResumeParser._identify_sections`. -/
def _identify_sections (text : String) : Sections3 :=
  let lines := (splitOnChar '\n' text.data).map String.mk
  flushState (lines.foldl stepLine { sections := {}, current := none, content := [] })

/-- The dictionary `parse` hands to the ATS checker: exactly the three fixed
keys, in insertion order. -/
def sectionsToDict (s : Sections3) : List (String × List String) :=
  [("experience", s.experience), ("education", s.education), ("skills", s.skills)]

example :
    _identify_sections "John\nEXPERIENCE\nAcme Corp\n\nEDUCATION\nMIT" =
    { experience := ["Acme Corp"], education := ["MIT"], skills := [] } := by
  decide

example :
    (check_ats_compatibility { raw_text := "", sections := [] }).ats_score = 73 := by
  decide

/-! ## Composite orchestrator (`app/routers/analysis.py`, `create_analysis`)

The handler runs the keyword analysis and the ATS check, combines them with
fixed weights 0.6/0.4, and stores the composite record.  Wall-clock
measurement (`processing_time_ms`) is an input of the model.  Python's
`round(x, 2)` is modelled on exact rationals: for the integer subscores the
float computation is the correctly rounded image of the exact value, and the
half-even tie rule is never exercised (the exact value has one decimal
digit). -/

/-- Python `round(x, 2)` on exact rationals. -/
def round2 (q : ℚ) : ℚ := (round (q * 100) : ℚ) / 100

/-- The two weighting lines of `create_analysis`:
`match_score = score*0.6 + ats_score*0.4`, stored as `round(match_score, 2)`. -/
def final_match_score (k a : ℚ) : ℚ := round2 (k * 0.6 + a * 0.4)

/-- The composite record persisted by `create_analysis` (the fields of the
spec's `CompositeAnalysis`). -/
structure CompositeAnalysis where
  match_score : ℚ
  ats_score : Int
  semantic_similarity : Nat
  matching_keywords : List String
  missing_keywords : List String
  ats_issues : List ATSIssue
  processing_time_ms : Nat
deriving DecidableEq, Repr

/-- The analysis pipeline of `create_analysis` (steps 2–5): keyword analysis
on the resume's parsed text, ATS check on its parsed data, weighted composite
score, record assembly.  `processing_time` is the measured wall-clock
duration in milliseconds. -/
def create_analysis (A : KeywordAnalyzer) (parsed_text : String)
    (parsed_data : ParsedResume) (job_description : String)
    (processing_time : Nat) : CompositeAnalysis :=
  let keyword_result := calculate_match_score A parsed_text job_description
  let ats_result := check_ats_compatibility parsed_data
  let match_score : ℚ := (keyword_result.score : ℚ) * 0.6 + (ats_result.ats_score : ℚ) * 0.4
  { match_score := round2 match_score,
    ats_score := ats_result.ats_score,
    semantic_similarity := keyword_result.score,
    matching_keywords := keyword_result.matched_keywords,
    missing_keywords := keyword_result.missing_keywords,
    ats_issues := ats_result.issues,
    processing_time_ms := processing_time }

/-- C3: the composite orchestrator computes
`final_match_score = round(matchScore*0.6 + atsScore*0.4, 2)` with fixed
weights 0.6 and 0.4; keyword score 75 with ATS score 85 yields 79.0,
(100,100) yields 100.0, and (0,0) yields 0.0. -/
theorem claim_C3 :
    (∀ (A : KeywordAnalyzer) (r : String) (pr : ParsedResume) (j : String) (t : Nat),
      (create_analysis A r pr j t).match_score =
        final_match_score ((calculate_match_score A r j).score : ℚ)
          ((check_ats_compatibility pr).ats_score : ℚ)) ∧
    final_match_score 75 85 = 79 ∧
    final_match_score 100 100 = 100 ∧
    final_match_score 0 0 = 0 := by
  refine ⟨fun A r pr j t => rfl, ?_, ?_, ?_⟩ <;>
    norm_num [final_match_score, round2]

/-- C7 counterexample: with the wall-clock measurement made explicit, two
invocations of the pipeline on an identical `(document, jobDescription)` pair
and a fixed model, measured at 5 ms and 6 ms, produce `CompositeAnalysis`
records that are not identical (they differ in `processing_time_ms`), so not
every specified field of the composite output is equal across the two runs. -/
theorem claim_C7_counterexample :
    create_analysis (stubAnalyzer [] []) "" { raw_text := "", sections := [] } "" 5 ≠
    create_analysis (stubAnalyzer [] []) "" { raw_text := "", sections := [] } "" 6 :=
  fun h => by
    have h5 := congrArg CompositeAnalysis.processing_time_ms h
    simp only [create_analysis] at h5
    exact absurd h5 (by decide)

/-- C7 (amended): two invocations of the analysis pipeline on an identical
`(document, jobDescription)` pair with a fixed model produce composite
outputs equal in every field except `processing_time_ms`, which merely
reports the measured wall-clock duration of each run. -/
theorem claim_C7 (A : KeywordAnalyzer) (r : String) (pr : ParsedResume)
    (j : String) (t1 t2 : Nat) :
    (create_analysis A r pr j t1).match_score = (create_analysis A r pr j t2).match_score ∧
    (create_analysis A r pr j t1).ats_score = (create_analysis A r pr j t2).ats_score ∧
    (create_analysis A r pr j t1).semantic_similarity =
      (create_analysis A r pr j t2).semantic_similarity ∧
    (create_analysis A r pr j t1).matching_keywords =
      (create_analysis A r pr j t2).matching_keywords ∧
    (create_analysis A r pr j t1).missing_keywords =
      (create_analysis A r pr j t2).missing_keywords ∧
    (create_analysis A r pr j t1).ats_issues = (create_analysis A r pr j t2).ats_issues ∧
    (create_analysis A r pr j t1).processing_time_ms = t1 :=
  ⟨rfl, rfl, rfl, rfl, rfl, rfl, rfl⟩

example :
    (check_ats_compatibility
      { raw_text := "worked at Acme",
        sections := [("experience", ["x"]), ("education", ["y"]), ("skills", ["z"]),
                     ("summary", ["s"])] }).ats_score = 100 := by
  decide

/-! ## Score-arithmetic lemmas for the ATS checker -/

/-- Total deduction of an issue list. -/
def totalDeduction (l : List ATSIssue) : Int :=
  (l.map (fun i => severityDeduction i.severity)).sum

/-- How many issues of `l` carry severity `s`. -/
def countSev (s : String) (l : List ATSIssue) : Nat :=
  l.countP (fun i => i.severity == s)

theorem severityDeduction_nonneg (s : String) : 0 ≤ severityDeduction s := by
  unfold severityDeduction
  split_ifs <;> norm_num

theorem totalDeduction_nil : totalDeduction [] = 0 := rfl

theorem totalDeduction_cons (a : ATSIssue) (l : List ATSIssue) :
    totalDeduction (a :: l) = severityDeduction a.severity + totalDeduction l := by
  simp [totalDeduction]

theorem totalDeduction_append (l₁ l₂ : List ATSIssue) :
    totalDeduction (l₁ ++ l₂) = totalDeduction l₁ + totalDeduction l₂ := by
  simp [totalDeduction]

theorem totalDeduction_nonneg (l : List ATSIssue) : 0 ≤ totalDeduction l := by
  induction l with
  | nil => simp [totalDeduction_nil]
  | cons a l ih =>
    rw [totalDeduction_cons]
    exact add_nonneg (severityDeduction_nonneg _) ih

theorem foldl_sub_deduction (l : List ATSIssue) :
    ∀ x : Int, l.foldl (fun s i => s - severityDeduction i.severity) x = x - totalDeduction l := by
  induction l with
  | nil => intro x; simp [totalDeduction_nil]
  | cons a l ih =>
    intro x
    rw [List.foldl_cons, ih, totalDeduction_cons]
    ring

/-- The score helper is the clamped difference `max 0 (100 - totalDeduction)`. -/
theorem calculate_ats_score_eq (issues : List ATSIssue) :
    _calculate_ats_score issues = max 0 (100 - totalDeduction issues) := by
  unfold _calculate_ats_score
  rw [foldl_sub_deduction]

/-- Section issues deduct at most the full table's 27 points. -/
theorem totalDeduction_check_sections_le (pr : ParsedResume) :
    totalDeduction (_check_sections pr) ≤ 27 := by
  have key : ∀ rules : List SectionRule,
      totalDeduction (rules.filterMap (fun rule =>
        if dictGetList pr.sections rule.name = [] then some (sectionIssueOf rule) else none)) ≤
      (rules.map (fun r => severityDeduction r.severity)).sum := by
    intro rules
    induction rules with
    | nil => simp [totalDeduction_nil]
    | cons r rs ih =>
      by_cases hc : dictGetList pr.sections r.name = []
      · simp only [List.filterMap_cons, hc, if_pos, List.map_cons, List.sum_cons]
        rw [totalDeduction_cons]
        exact add_le_add_left ih _
      · simp only [List.filterMap_cons, hc, if_neg, not_false_iff, List.map_cons, List.sum_cons]
        exact ih.trans (le_add_of_nonneg_left (severityDeduction_nonneg _))
  exact (key critical_sections).trans_eq (by decide)

theorem check_sections_length_le (pr : ParsedResume) :
    (_check_sections pr).length ≤ 4 := by
  unfold _check_sections
  exact (List.length_filterMap_le _ _).trans (by decide)

/-- Formatting issues deduct at most 16 points. -/
theorem totalDeduction_formatting_le (text : String) :
    totalDeduction (_check_formatting_issues text) ≤ 16 := by
  unfold _check_formatting_issues
  dsimp only
  split_ifs <;> decide

theorem formatting_length_le (text : String) :
    (_check_formatting_issues text).length ≤ 5 := by
  unfold _check_formatting_issues
  dsimp only
  split_ifs <;> decide

/-- Every issue the checker constructs carries one of the three known
severities. -/
theorem sections_sev_valid (pr : ParsedResume) :
    ∀ i ∈ _check_sections pr,
      i.severity = "high" ∨ i.severity = "medium" ∨ i.severity = "low" := by
  intro i hi
  unfold _check_sections at hi
  obtain ⟨r, hr, hf⟩ := List.mem_filterMap.mp hi
  by_cases hc : dictGetList pr.sections r.name = []
  · rw [if_pos hc] at hf
    obtain rfl := Option.some.inj hf
    fin_cases hr <;> simp [sectionIssueOf, experienceRule, educationRule, skillsRule, summaryRule]
  · rw [if_neg hc] at hf
    exact absurd hf (Option.some_ne_none _).symm

theorem formatting_sev_valid (text : String) :
    ∀ i ∈ _check_formatting_issues text,
      i.severity = "high" ∨ i.severity = "medium" ∨ i.severity = "low" := by
  intro i hi
  unfold _check_formatting_issues at hi
  dsimp only at hi
  split_ifs at hi <;> fin_cases hi <;> decide

/-- On lists of known-severity issues, the total deduction counts severities
with the fixed weights 10/5/2. -/
theorem totalDeduction_eq_counts (l : List ATSIssue)
    (h : ∀ i ∈ l, i.severity = "high" ∨ i.severity = "medium" ∨ i.severity = "low") :
    totalDeduction l =
      10 * (countSev "high" l : Int) + 5 * (countSev "medium" l : Int) +
        2 * (countSev "low" l : Int) := by
  induction l with
  | nil => simp [totalDeduction_nil, countSev]
  | cons a l ih =>
    have ha := h a (List.mem_cons_self a l)
    have ih' := ih (fun i hi => h i (List.mem_cons_of_mem a hi))
    rw [totalDeduction_cons, ih']
    rcases ha with h1 | h1 | h1 <;>
      simp [countSev, List.countP_cons, h1, severityDeduction] <;> omega

/-- C2: `check_ats_compatibility` scores start at 100 and deduct 10 per
high-severity issue, 5 per medium, 2 per low, clamped to `[0, 100]`; a report
with no issues scores 100, two high-severity issues score 80, twenty
high-severity issues score 0; and `passed` equals `ats_score ≥ 70`. -/
theorem claim_C2 (pr : ParsedResume) :
    (check_ats_compatibility pr).ats_score =
      max 0 (100 - (10 * (countSev "high" (check_ats_compatibility pr).issues : Int) +
                    5 * (countSev "medium" (check_ats_compatibility pr).issues : Int) +
                    2 * (countSev "low" (check_ats_compatibility pr).issues : Int))) ∧
    0 ≤ (check_ats_compatibility pr).ats_score ∧
    (check_ats_compatibility pr).ats_score ≤ 100 ∧
    (check_ats_compatibility pr).passed =
      decide (70 ≤ (check_ats_compatibility pr).ats_score) ∧
    _calculate_ats_score [] = 100 ∧
    _calculate_ats_score [sectionIssueOf experienceRule, sectionIssueOf experienceRule] = 80 ∧
    _calculate_ats_score (List.replicate 20 (sectionIssueOf experienceRule)) = 0 := by
  have hiss : (check_ats_compatibility pr).issues =
      _check_sections pr ++ _check_formatting_issues pr.raw_text := rfl
  have hvalid : ∀ i ∈ (check_ats_compatibility pr).issues,
      i.severity = "high" ∨ i.severity = "medium" ∨ i.severity = "low" := by
    rw [hiss]
    intro i hi
    rcases List.mem_append.mp hi with hi | hi
    · exact sections_sev_valid pr i hi
    · exact formatting_sev_valid pr.raw_text i hi
  have hscore : (check_ats_compatibility pr).ats_score =
      max 0 (100 - totalDeduction (check_ats_compatibility pr).issues) := by
    rw [hiss]
    exact calculate_ats_score_eq _
  refine ⟨?_, ?_, ?_, rfl, by decide, by decide, by decide⟩
  · rw [hscore, totalDeduction_eq_counts _ hvalid]
  · rw [hscore]; exact le_max_left _ _
  · rw [hscore]
    exact max_le (by norm_num)
      (by have := totalDeduction_nonneg (check_ats_compatibility pr).issues; omega)

/-- C10: the checker emits at most 4 section issues and at most 5 formatting
issues, the total deduction never exceeds 43, the clamp at 0 is never
exercised through `check_ats_compatibility`, and the score is always at
least 57. -/
theorem claim_C10 (pr : ParsedResume) :
    (_check_sections pr).length ≤ 4 ∧
    (_check_formatting_issues pr.raw_text).length ≤ 5 ∧
    totalDeduction (check_ats_compatibility pr).issues ≤ 43 ∧
    (check_ats_compatibility pr).ats_score =
      100 - totalDeduction (check_ats_compatibility pr).issues ∧
    57 ≤ (check_ats_compatibility pr).ats_score := by
  have hiss : (check_ats_compatibility pr).issues =
      _check_sections pr ++ _check_formatting_issues pr.raw_text := rfl
  have htd : totalDeduction (check_ats_compatibility pr).issues ≤ 43 := by
    rw [hiss, totalDeduction_append]
    have h1 := totalDeduction_check_sections_le pr
    have h2 := totalDeduction_formatting_le pr.raw_text
    omega
  have hscore : (check_ats_compatibility pr).ats_score =
      max 0 (100 - totalDeduction (check_ats_compatibility pr).issues) := by
    rw [hiss]
    exact calculate_ats_score_eq _
  have heq : (check_ats_compatibility pr).ats_score =
      100 - totalDeduction (check_ats_compatibility pr).issues := by
    rw [hscore, max_eq_right]
    omega
  exact ⟨check_sections_length_le pr, formatting_length_le pr.raw_text, htd, heq, by omega⟩

/-! ## Claims about the match scorer and the section issues -/

/-- C5: with zero keywords extracted from the job description — including
when the job description or the resume text is empty — `calculate_match_score`
returns the well-formed degenerate result (score 0, empty lists, zero
counts) rather than raising. -/
theorem claim_C5 (A : KeywordAnalyzer) (R J : String)
    (h : R = "" ∨ J = "" ∨ extract_keywords A J 20 = []) :
    calculate_match_score A R J = zeroMatchResult := by
  rcases h with h | h | h <;> simp [calculate_match_score, h]

/-- C5 witness: an empty resume yields the degenerate result even when the
job description would extract keywords. -/
theorem claim_C5_witness :
    calculate_match_score (stubAnalyzer [("python", 1)] []) "" "Need a Python expert" =
      zeroMatchResult :=
  claim_C5 (stubAnalyzer [("python", 1)] []) "" "Need a Python expert" (Or.inl rfl)

/-- Every formatting issue carries type `formatting_issue`. -/
theorem formatting_type (text : String) :
    ∀ i ∈ _check_formatting_issues text, i.type = "formatting_issue" := by
  intro i hi
  unfold _check_formatting_issues at hi
  dsimp only at hi
  split_ifs at hi <;> fin_cases hi <;> decide

/-- C6: a parsed document missing all of experience, education, skills and
summary yields exactly 4 section issues from `check_ats_compatibility`, in
the fixed order experience, education, skills, summary, with severities
high, high, medium, low; and the extractor's sections dictionary never
contains a `summary` key, so the summary issue fires for every
extractor-produced document. -/
theorem claim_C6 (pr : ParsedResume)
    (h1 : dictGetList pr.sections "experience" = [])
    (h2 : dictGetList pr.sections "education" = [])
    (h3 : dictGetList pr.sections "skills" = [])
    (h4 : dictGetList pr.sections "summary" = []) :
    (check_ats_compatibility pr).issues.filter (fun i => i.type == "missing_section") =
      [sectionIssueOf experienceRule, sectionIssueOf educationRule,
       sectionIssueOf skillsRule, sectionIssueOf summaryRule] ∧
    ((check_ats_compatibility pr).issues.filter
        (fun i => i.type == "missing_section")).map (fun i => i.severity) =
      ["high", "high", "medium", "low"] ∧
    ∀ text : String, dictGetList (sectionsToDict (_identify_sections text)) "summary" = [] := by
  have hiss : (check_ats_compatibility pr).issues =
      _check_sections pr ++ _check_formatting_issues pr.raw_text := rfl
  have hsec : _check_sections pr =
      [sectionIssueOf experienceRule, sectionIssueOf educationRule,
       sectionIssueOf skillsRule, sectionIssueOf summaryRule] := by
    unfold _check_sections critical_sections
    simp only [List.filterMap_cons, List.filterMap_nil,
      show experienceRule.name = "experience" from rfl,
      show educationRule.name = "education" from rfl,
      show skillsRule.name = "skills" from rfl,
      show summaryRule.name = "summary" from rfl, h1, h2, h3, h4, if_pos]
  have hfmt : (_check_formatting_issues pr.raw_text).filter
      (fun i => i.type == "missing_section") = [] := by
    rw [List.filter_eq_nil_iff]
    intro i hi
    have := formatting_type pr.raw_text i hi
    simp [this]
  have hfilter : (check_ats_compatibility pr).issues.filter
      (fun i => i.type == "missing_section") =
      [sectionIssueOf experienceRule, sectionIssueOf educationRule,
       sectionIssueOf skillsRule, sectionIssueOf summaryRule] := by
    rw [hiss, List.filter_append, hsec, hfmt, List.append_nil]
    decide
  refine ⟨hfilter, ?_, fun text => rfl⟩
  rw [hfilter]
  decide

/-- C6 witness: a parsed document with no sections at all gets exactly the
four fixed section issues, in order, with severities high, high, medium,
low. -/
theorem claim_C6_witness :
    (check_ats_compatibility { raw_text := "", sections := [] }).issues.filter
        (fun i => i.type == "missing_section") =
      [sectionIssueOf experienceRule, sectionIssueOf educationRule,
       sectionIssueOf skillsRule, sectionIssueOf summaryRule] ∧
    ((check_ats_compatibility { raw_text := "", sections := [] }).issues.filter
        (fun i => i.type == "missing_section")).map (fun i => i.severity) =
      ["high", "high", "medium", "low"] :=
  ⟨(claim_C6 { raw_text := "", sections := [] } rfl rfl rfl rfl).1,
   (claim_C6 { raw_text := "", sections := [] } rfl rfl rfl rfl).2.1⟩

/-- The merge loops of `extract_keywords` produce a duplicate-free list whose
members avoid the initial `seen` set. -/
theorem addUnseen_nodup (l : List String) :
    ∀ seen, (addUnseen seen l).Nodup ∧ ∀ x ∈ addUnseen seen l, x ∉ seen := by
  induction l with
  | nil => intro seen; simp [addUnseen]
  | cons k ks ih =>
    intro seen
    by_cases hk : k ∈ seen
    · rw [addUnseen, if_pos hk]
      exact ih seen
    · rw [addUnseen, if_neg hk]
      obtain ⟨hnodup, hmem⟩ := ih (k :: seen)
      refine ⟨List.nodup_cons.mpr ⟨?_, hnodup⟩, ?_⟩
      · intro hmem_k
        exact hmem k hmem_k (List.mem_cons_self k seen)
      · intro x hx
        rcases List.mem_cons.mp hx with rfl | hx
        · exact hk
        · intro hxs
          exact hmem x hx (List.mem_cons_of_mem k hxs)

/-- C8: for every text and `top_n`, `extract_keywords` returns an ordered
sequence of unique keyword strings of length at most `top_n`, and returns
the empty sequence for empty or whitespace-only text — for every behaviour
of the TF-IDF and NER branches. -/
theorem claim_C8 (A : KeywordAnalyzer) (text : String) (top_n : Nat) :
    (extract_keywords A text top_n).Nodup ∧
    (extract_keywords A text top_n).length ≤ top_n ∧
    ((text = "" ∨ stripStr text = "") → extract_keywords A text top_n = []) := by
  unfold extract_keywords
  split_ifs with h
  · simp
  · refine ⟨?_, ?_, ?_⟩
    · exact (List.take_sublist _ _).nodup (addUnseen_nodup _ []).1
    · exact List.length_take_le _ _
    · intro hc
      exfalso
      rcases hc with hc | hc <;> simp [hc] at h

/-- C8 witness: whitespace-only text extracts nothing, and the bounds hold,
for a concrete branch behaviour. -/
theorem claim_C8_witness :
    (extract_keywords (stubAnalyzer [("python", 1)] ["acme"]) "   " 20).Nodup ∧
    (extract_keywords (stubAnalyzer [("python", 1)] ["acme"]) "   " 20).length ≤ 20 ∧
    extract_keywords (stubAnalyzer [("python", 1)] ["acme"]) "   " 20 = [] := by
  obtain ⟨h1, h2, h3⟩ := claim_C8 (stubAnalyzer [("python", 1)] ["acme"]) "   " 20
  exact ⟨h1, h2, h3 (Or.inr (by decide))⟩

/-- The non-degenerate branch of `calculate_match_score`, spelled out: the
matched and missing lists are the word-boundary filter and its complement
over the extracted keyword set, and the score is the floored percentage. -/
theorem calculate_match_score_spec (A : KeywordAnalyzer) (R J : String)
    (hR : R ≠ "") (hJ : J ≠ "") (hk : extract_keywords A J 20 ≠ []) :
    calculate_match_score A R J =
      { score := ((extract_keywords A J 20).filter
            (keywordPresent (lowerStr R).data)).length * 100 /
          (extract_keywords A J 20).length,
        matched_keywords := (extract_keywords A J 20).filter
          (keywordPresent (lowerStr R).data),
        missing_keywords := (extract_keywords A J 20).filter
          (fun kw => !keywordPresent (lowerStr R).data kw),
        total_keywords := (extract_keywords A J 20).length,
        matched_count := ((extract_keywords A J 20).filter
            (keywordPresent (lowerStr R).data)).length,
        missing_count := ((extract_keywords A J 20).filter
            (fun kw => !keywordPresent (lowerStr R).data kw)).length } := by
  have hpos : 0 < (extract_keywords A J 20).length := List.length_pos.mpr hk
  unfold calculate_match_score
  dsimp only
  rw [if_neg (by simp [hR, hJ]), if_neg hk, if_pos hpos]

/-- Counting a filter and its complement covers the list. -/
theorem filter_length_partition {α : Type} (p : α → Bool) (l : List α) :
    (l.filter p).length + (l.filter (fun a => !p a)).length = l.length := by
  induction l with
  | nil => rfl
  | cons a l ih => by_cases h : p a <;> simp [List.filter_cons, h] <;> omega

/-- C1: when at least one keyword is extracted from the job description (and
neither input is empty, so extraction runs), `calculate_match_score` returns
`score = floor(matched_count / total_keywords * 100) ∈ [0, 100]`; the matched
and missing lists are order-preserving sublists of the extracted keyword set
that cover it disjointly; and `matched_count + missing_count =
total_keywords`. -/
theorem claim_C1 (A : KeywordAnalyzer) (R J : String)
    (hR : R ≠ "") (hJ : J ≠ "") (hk : extract_keywords A J 20 ≠ []) :
    (calculate_match_score A R J).total_keywords = (extract_keywords A J 20).length ∧
    (calculate_match_score A R J).matched_count + (calculate_match_score A R J).missing_count =
      (calculate_match_score A R J).total_keywords ∧
    (calculate_match_score A R J).score =
      (calculate_match_score A R J).matched_count * 100 /
        (calculate_match_score A R J).total_keywords ∧
    (calculate_match_score A R J).score ≤ 100 ∧
    (calculate_match_score A R J).matched_keywords.Sublist (extract_keywords A J 20) ∧
    (calculate_match_score A R J).missing_keywords.Sublist (extract_keywords A J 20) ∧
    (∀ k ∈ extract_keywords A J 20,
      k ∈ (calculate_match_score A R J).matched_keywords ∨
      k ∈ (calculate_match_score A R J).missing_keywords) ∧
    (∀ k, k ∈ (calculate_match_score A R J).matched_keywords →
      k ∉ (calculate_match_score A R J).missing_keywords) := by
  rw [calculate_match_score_spec A R J hR hJ hk]
  set ks := extract_keywords A J 20 with hks
  set p := keywordPresent (lowerStr R).data with hp
  have hm_le : (ks.filter p).length ≤ ks.length := List.length_filter_le _ _
  have hpos : 0 < ks.length := List.length_pos.mpr hk
  refine ⟨rfl, filter_length_partition p ks, rfl, ?_, List.filter_sublist _,
    List.filter_sublist _, ?_, ?_⟩
  · calc (ks.filter p).length * 100 / ks.length
        ≤ ks.length * 100 / ks.length :=
          Nat.div_le_div_right (Nat.mul_le_mul_right 100 hm_le)
      _ = 100 := Nat.mul_div_cancel_left 100 hpos
  · intro k hkmem
    by_cases hpk : p k
    · exact Or.inl (List.mem_filter.mpr ⟨hkmem, hpk⟩)
    · exact Or.inr (List.mem_filter.mpr ⟨hkmem, by simp [hpk]⟩)
  · intro k h1 h2
    have hp1 := (List.mem_filter.mp h1).2
    have hp2 := (List.mem_filter.mp h2).2
    simp [hp1] at hp2

/-- C1 witness: a concrete extraction with two keywords, one matched. -/
theorem claim_C1_witness :
    (calculate_match_score (stubAnalyzer [("python", 1)] ["java"])
        "Python and JavaScript engineer" "job text").total_keywords = 2 ∧
    (calculate_match_score (stubAnalyzer [("python", 1)] ["java"])
        "Python and JavaScript engineer" "job text").score ≤ 100 := by
  have h := claim_C1 (stubAnalyzer [("python", 1)] ["java"])
    "Python and JavaScript engineer" "job text" (by decide) (by decide) (by decide)
  exact ⟨h.1.trans (by decide), h.2.2.2.1⟩

/-- The claim's hypothesis, in its own words: every occurrence of `kw` in
`t` is embedded inside a larger token, i.e. has an adjacent word character
on at least one side. -/
def embeddedOnly (kw t : List Char) : Bool :=
  (List.range (t.length + 1)).all fun i =>
    !containsAt kw t i || (leftIsWord t i || optIsWordChar t[i + kw.length]?)

/-- A nonempty keyword of word characters that occurs only embedded inside
larger tokens is never found by the word-boundary search. -/
theorem embedded_not_found (kw t : List Char) (hne : kw ≠ [])
    (hw : ∀ c ∈ kw, isWordChar c) (h : embeddedOnly kw t = true) :
    wordBoundarySearch kw t = false := by
  rw [← Bool.not_eq_true]
  intro hs
  unfold wordBoundarySearch at hs
  obtain ⟨i, hi_mem, hi⟩ := List.any_eq_true.mp hs
  unfold wbMatchAt at hi
  simp only [Bool.and_eq_true] at hi
  obtain ⟨⟨hpre, hb1⟩, hb2⟩ := hi
  obtain ⟨rest, hrest⟩ := List.isPrefixOf_iff_prefix.mp hpre
  have hidx : ∀ j, j < kw.length → t[i + j]? = kw[j]? := by
    intro j hj
    have h1 : t[i + j]? = (t.drop i)[j]? := (List.getElem?_drop t i j).symm
    rw [h1, ← hrest]
    exact List.getElem?_append_left hj
  rcases kw with _ | ⟨c, cs⟩
  · exact hne rfl
  have hc0 : t[i]? = some c := by
    have := hidx 0 (Nat.succ_pos _)
    simpa using this
  have hlast : ∃ d, t[i + cs.length]? = some d ∧ d ∈ c :: cs := by
    have hj := hidx cs.length (by simp)
    have hlt : cs.length < (c :: cs).length := by simp
    rw [hj, List.getElem?_eq_getElem hlt]
    exact ⟨_, rfl, List.getElem_mem hlt⟩
  obtain ⟨d, hd, hdmem⟩ := hlast
  have hw0 : optIsWordChar t[i]? = true := by
    rw [hc0]
    exact hw c (List.mem_cons_self _ _)
  have hwd : optIsWordChar t[i + cs.length]? = true := by
    rw [hd]
    exact hw d hdmem
  have hleft : leftIsWord t i = false := by
    unfold boundaryAt at hb1
    rw [hw0] at hb1
    simpa using hb1
  have hright : optIsWordChar t[i + (c :: cs).length]? = false := by
    unfold boundaryAt at hb2
    have hL : leftIsWord t (i + (c :: cs).length) = true := by
      show leftIsWord t ((i + cs.length) + 1) = true
      unfold leftIsWord
      exact hwd
    rw [hL] at hb2
    simpa using hb2
  unfold embeddedOnly at h
  have hall := List.all_eq_true.mp h i hi_mem
  have hcont : containsAt (c :: cs) t i = true := hpre
  rw [hcont] at hall
  have hright2 : optIsWordChar t[i + (cs.length + 1)]? = false := hright
  simp [hleft, hright2] at hall

/-- C4: each extracted keyword is tested against the lowercased resume text
with a word-boundary regex, so a keyword that appears only embedded inside
larger tokens of the resume is placed in `missing_keywords`, never in
`matched_keywords`. -/
theorem claim_C4 (A : KeywordAnalyzer) (R J kw : String)
    (hR : R ≠ "") (hJ : J ≠ "")
    (hkw : kw ∈ extract_keywords A J 20)
    (hne : (lowerStr kw).data ≠ [])
    (hw : ∀ c ∈ (lowerStr kw).data, isWordChar c)
    (hemb : embeddedOnly (lowerStr kw).data (lowerStr R).data = true) :
    kw ∈ (calculate_match_score A R J).missing_keywords ∧
    kw ∉ (calculate_match_score A R J).matched_keywords := by
  have hks : extract_keywords A J 20 ≠ [] := List.ne_nil_of_mem hkw
  have hfound : keywordPresent (lowerStr R).data kw = false :=
    embedded_not_found _ _ hne hw hemb
  rw [calculate_match_score_spec A R J hR hJ hks]
  constructor
  · exact List.mem_filter.mpr ⟨hkw, by simp [hfound]⟩
  · intro hmem
    have := (List.mem_filter.mp hmem).2
    simp [hfound] at this

/-- C4 witness: job description "Java developer" against resume
"JavaScript engineer" — "java" occurs only inside "javascript", so it lands
in `missing_keywords`. -/
theorem claim_C4_witness :
    "java" ∈ (calculate_match_score (stubAnalyzer [] ["java"])
        "JavaScript engineer" "Java developer").missing_keywords ∧
    "java" ∉ (calculate_match_score (stubAnalyzer [] ["java"])
        "JavaScript engineer" "Java developer").matched_keywords :=
  claim_C4 (stubAnalyzer [] ["java"]) "JavaScript engineer" "Java developer" "java"
    (by decide) (by decide) (by decide) (by decide) (by decide) (by decide)

/-! ## The contact round-trip (claim C9)

`re.search` returns the match at the leftmost position where the anchored
matcher succeeds.  The lemmas below settle the scan, then each of the three
patterns gets a "no match can start inside the prefix" argument from an
intrinsic property of the text (no `@` before the token, no digit before the
token, no earlier case-insensitive occurrence of the LinkedIn literal). -/

theorem searchFrom_of_some {f : Nat → Option Nat} {i fuel v : Nat} (h : f i = some v) :
    searchFrom f i fuel = some (i, v) := by
  cases fuel <;> simp [searchFrom, h]

theorem searchFrom_succ {f : Nat → Option Nat} {i fuel : Nat} (h : f i = none) :
    searchFrom f i (fuel + 1) = searchFrom f (i + 1) fuel := by
  simp [searchFrom, h]

theorem searchFrom_skip (f : Nat → Option Nat) :
    ∀ (d i fuel : Nat), d ≤ fuel → (∀ j, j < d → f (i + j) = none) →
      searchFrom f i fuel = searchFrom f (i + d) (fuel - d) := by
  intro d
  induction d with
  | zero => intro i fuel _ _; simp
  | succ d ih =>
    intro i fuel hd hnone
    obtain ⟨fuel', rfl⟩ : ∃ fuel', fuel = fuel' + 1 := ⟨fuel - 1, by omega⟩
    have h0 : f i = none := by simpa using hnone 0 (Nat.succ_pos d)
    rw [searchFrom_succ h0]
    have hrec := ih (i + 1) fuel' (by omega) (fun j hj => by
      rw [show i + 1 + j = i + (j + 1) from by omega]
      exact hnone (j + 1) (by omega))
    rw [hrec, show i + 1 + d = i + (d + 1) from by omega,
      show fuel' - d = fuel' + 1 - (d + 1) from by omega]

/-- The scan returns the first position at which the matcher succeeds. -/
theorem reSearch_first (f : List Char → Nat → Option Nat) (t : List Char) (k len : Nat)
    (hk : k ≤ t.length) (hnone : ∀ i, i < k → f t i = none) (hsome : f t k = some len) :
    reSearch f t = some (k, len) := by
  unfold reSearch
  rw [searchFrom_skip (f t) k 0 t.length hk (fun j hj => by simpa using hnone j hj),
    Nat.zero_add]
  exact searchFrom_of_some hsome

/-- Common skeleton of the three round-trips: when no match starts inside the
prefix `a` and the matcher at the token's start consumes exactly the token,
the extracted field is exactly the token. -/
theorem contact_search_extracts (f : List Char → Nat → Option Nat) (a tok b : String)
    (hnone : ∀ i, i < a.data.length → f (a ++ tok ++ b).data i = none)
    (hm : f (a ++ tok ++ b).data a.data.length = some tok.data.length) :
    (reSearch f (a ++ tok ++ b).data).map
      (fun p => substrOf (a ++ tok ++ b).data p.1 p.2) = some tok := by
  have hdata : (a ++ tok ++ b).data = a.data ++ (tok.data ++ b.data) := by
    show (a.data ++ tok.data) ++ b.data = _
    rw [List.append_assoc]
  have hk : a.data.length ≤ (a ++ tok ++ b).data.length := by
    rw [hdata, List.length_append]
    omega
  rw [reSearch_first f _ a.data.length tok.data.length hk hnone hm]
  show some (substrOf (a ++ tok ++ b).data a.data.length tok.data.length) = some tok
  unfold substrOf
  rw [hdata, List.drop_left, List.take_left]

/-- Every index below a `p`-run bound carries a `p`-character. -/
theorem runLen_spec (p : Char → Bool) :
    ∀ (l : List Char) (j : Nat), j < runLen p l → ∃ c, l[j]? = some c ∧ p c := by
  intro l
  induction l with
  | nil => intro j hj; simp [runLen] at hj
  | cons c cs ih =>
    intro j hj
    rw [runLen] at hj
    by_cases hp : p c
    · rw [if_pos hp] at hj
      cases j with
      | zero => exact ⟨c, by simp, hp⟩
      | succ j =>
        obtain ⟨d, hd, hpd⟩ := ih j (by omega)
        exact ⟨d, by simpa using hd, hpd⟩
    · rw [if_neg hp] at hj
      omega

/-- A successful email match at `i` exhibits a nonempty local-character run
followed immediately by `@`. -/
theorem emailMatchAt_spec {t : List Char} {i len : Nat} (h : emailMatchAt t i = some len) :
    ∃ n, 1 ≤ n ∧ (∀ j, j < n → ∃ c, t[i + j]? = some c ∧ isLocalChar c) ∧
      t[i + n]? = some '@' := by
  unfold emailMatchAt at h
  split_ifs at h with hb
  obtain ⟨n, hn_mem, hn⟩ := List.exists_of_findSome?_eq_some h
  have hrange : 1 ≤ n ∧ n ≤ maxRunAt isLocalChar t i := by
    unfold descCands at hn_mem
    obtain ⟨j, hj, rfl⟩ := List.mem_map.mp hn_mem
    rw [List.mem_range] at hj
    omega
  split_ifs at hn with hat
  refine ⟨n, hrange.1, ?_, by simpa using hat⟩
  intro j hj
  have hj2 : j < runLen isLocalChar (t.drop i) := by
    have := hrange.2
    unfold maxRunAt at this
    omega
  obtain ⟨c, hc, hpc⟩ := runLen_spec isLocalChar (t.drop i) j hj2
  exact ⟨c, (List.getElem?_drop t i j) ▸ hc, hpc⟩

/-- No email match can start inside a prefix that contains no `@` and whose
last character is not a local-part character. -/
theorem emailMatchAt_none_of_prefix (a rest : List Char)
    (hat : ∀ c ∈ a, c ≠ '@')
    (hlast : ∀ c, a.getLast? = some c → isLocalChar c = false) :
    ∀ i, i < a.length → emailMatchAt (a ++ rest) i = none := by
  intro i hi
  cases hE : emailMatchAt (a ++ rest) i with
  | none => rfl
  | some len =>
    exfalso
    obtain ⟨n, hn1, hchars, hAt⟩ := emailMatchAt_spec hE
    by_cases hcase : i + n < a.length
    · rw [List.getElem?_append_left hcase] at hAt
      exact hat '@' (List.getElem?_mem hAt) rfl
    · have hlt : a.length - 1 < a.length := by omega
      have hj : a.length - 1 - i < n := by omega
      obtain ⟨c, hc, hpc⟩ := hchars (a.length - 1 - i) hj
      rw [show i + (a.length - 1 - i) = a.length - 1 from by omega,
        List.getElem?_append_left hlt] at hc
      have hgl : a.getLast? = some c := by
        rw [List.getLast?_eq_getElem?]
        exact hc
      rw [hlast c hgl] at hpc
      exact Bool.noConfusion hpc

/-- Email round-trip: a well-formed email token preceded by an `@`-free
prefix ending in a non-local character is recovered exactly. -/
theorem email_roundtrip (a tok b : String)
    (hat : ∀ c ∈ a.data, c ≠ '@')
    (hlast : ∀ c, a.data.getLast? = some c → isLocalChar c = false)
    (hm : emailMatchAt (a ++ tok ++ b).data a.data.length = some tok.data.length) :
    (_extract_contact_info (a ++ tok ++ b)).email = some tok := by
  have hdata : (a ++ tok ++ b).data = a.data ++ (tok.data ++ b.data) := by
    show (a.data ++ tok.data) ++ b.data = _
    rw [List.append_assoc]
  have hnone : ∀ i, i < a.data.length → emailMatchAt (a ++ tok ++ b).data i = none := by
    intro i hi
    rw [hdata]
    exact emailMatchAt_none_of_prefix a.data (tok.data ++ b.data) hat hlast i hi
  exact contact_search_extracts emailMatchAt a tok b hnone hm

/-- A successful `\d{cnt}` (`cnt ≥ 1`) starts with a digit. -/
theorem exactDigits_first {t : List Char} {i cnt r : Nat} (h : exactDigits t i cnt = some r)
    (hcnt : 1 ≤ cnt) : ∃ c, t[i]? = some c ∧ c.isDigit := by
  unfold exactDigits at h
  dsimp only at h
  split_ifs at h with hc
  simp only [Bool.and_eq_true, decide_eq_true_eq] at hc
  obtain ⟨hlen, hall⟩ := hc
  have e1 : ((t.drop i).take cnt)[0]? = (t.drop i)[0]? :=
    List.getElem?_take_of_lt (by omega)
  have e2 : (t.drop i)[0]? = t[i]? := by
    rw [List.getElem?_drop]
    norm_num
  cases hx : ((t.drop i).take cnt)[0]? with
  | none =>
    rw [List.getElem?_eq_none_iff, hlen] at hx
    omega
  | some c =>
    refine ⟨c, by rw [← e2, ← e1, hx], ?_⟩
    exact List.all_eq_true.mp hall c (List.getElem?_mem hx)

theorem optCharCands_mem {c : Char} {t : List Char} {i j : Nat}
    (h : j ∈ optCharCands c t i) : j = i ∨ (j = i + 1 ∧ t[i]? = some c) := by
  unfold optCharCands at h
  rcases List.mem_append.mp h with h | h
  · split_ifs at h with hc
    · simp only [List.mem_singleton] at h
      exact Or.inr ⟨h, by simpa using hc⟩
    · simp at h
  · simp only [List.mem_singleton] at h
    exact Or.inl h

theorem digitsUpTo3_digit {t : List Char} {j k : Nat} (h : k ∈ digitsUpTo3 t j) :
    ∃ c, t[j]? = some c ∧ c.isDigit := by
  unfold digitsUpTo3 at h
  obtain ⟨n, hn_mem, hn⟩ := List.mem_filterMap.mp h
  have hn1 : 1 ≤ n := by fin_cases hn_mem <;> norm_num
  exact exactDigits_first hn hn1

/-- A successful phone match at `i` needs a digit at `i`, or a digit at
`i + 1` behind a leading `+` or `(`. -/
theorem phoneMatchAt_spec {t : List Char} {i len : Nat} (h : phoneMatchAt t i = some len) :
    (∃ c, t[i]? = some c ∧ c.isDigit) ∨
    ((t[i]? = some '+' ∨ t[i]? = some '(') ∧ ∃ c, t[i + 1]? = some c ∧ c.isDigit) := by
  unfold phoneMatchAt at h
  obtain ⟨j, hj_mem, hj⟩ := List.exists_of_findSome?_eq_some h
  unfold phoneGroup1Cands at hj_mem
  rcases List.mem_append.mp hj_mem with hgrp | hskip
  · obtain ⟨j1, hj1_mem, hj1d⟩ := List.mem_flatMap.mp hgrp
    obtain ⟨k, hk_mem, _⟩ := List.mem_flatMap.mp hj1d
    have hdig := digitsUpTo3_digit hk_mem
    rcases optCharCands_mem hj1_mem with rfl | ⟨rfl, hplus⟩
    · exact Or.inl hdig
    · exact Or.inr ⟨Or.inl hplus, hdig⟩
  · have hj_eq : j = i := by simpa using hskip
    subst hj_eq
    obtain ⟨k, hk_mem, hk⟩ := List.exists_of_findSome?_eq_some hj
    obtain ⟨l, hl, _⟩ := Option.bind_eq_some.mp hk
    have hdig := exactDigits_first hl (by norm_num)
    rcases optCharCands_mem hk_mem with rfl | ⟨rfl, hpar⟩
    · exact Or.inl hdig
    · exact Or.inr ⟨Or.inr hpar, hdig⟩

/-- No phone match can start inside a digit-free prefix whose last character
is neither `+` nor `(`. -/
theorem phoneMatchAt_none_of_prefix (a rest : List Char)
    (hd : ∀ c ∈ a, c.isDigit = false)
    (hlast : ∀ c, a.getLast? = some c → c ≠ '+' ∧ c ≠ '(') :
    ∀ i, i < a.length → phoneMatchAt (a ++ rest) i = none := by
  intro i hi
  cases hE : phoneMatchAt (a ++ rest) i with
  | none => rfl
  | some len =>
    exfalso
    rcases phoneMatchAt_spec hE with ⟨c, hc, hdig⟩ | ⟨hpc, c, hc, hdig⟩
    · rw [List.getElem?_append_left hi] at hc
      rw [hd c (List.getElem?_mem hc)] at hdig
      exact Bool.noConfusion hdig
    · by_cases h1 : i + 1 < a.length
      · rw [List.getElem?_append_left h1] at hc
        rw [hd c (List.getElem?_mem hc)] at hdig
        exact Bool.noConfusion hdig
      · have hglast : (a ++ rest)[i]? = a.getLast? := by
          rw [List.getElem?_append_left hi, List.getLast?_eq_getElem?,
            show a.length - 1 = i from by omega]
        rcases hpc with hp | hp
        · exact (hlast '+' (by rw [← hglast]; exact hp)).1 rfl
        · exact (hlast '(' (by rw [← hglast]; exact hp)).2 rfl

/-- Phone round-trip: a phone token preceded by a digit-free prefix not
ending in `+` or `(` is recovered exactly. -/
theorem phone_roundtrip (a tok b : String)
    (hd : ∀ c ∈ a.data, c.isDigit = false)
    (hlast : ∀ c, a.data.getLast? = some c → c ≠ '+' ∧ c ≠ '(')
    (hm : phoneMatchAt (a ++ tok ++ b).data a.data.length = some tok.data.length) :
    (_extract_contact_info (a ++ tok ++ b)).phone = some tok := by
  have hdata : (a ++ tok ++ b).data = a.data ++ (tok.data ++ b.data) := by
    show (a.data ++ tok.data) ++ b.data = _
    rw [List.append_assoc]
  have hnone : ∀ i, i < a.data.length → phoneMatchAt (a ++ tok ++ b).data i = none := by
    intro i hi
    rw [hdata]
    exact phoneMatchAt_none_of_prefix a.data (tok.data ++ b.data) hd hlast i hi
  exact contact_search_extracts phoneMatchAt a tok b hnone hm

/-- LinkedIn round-trip: when the (case-insensitive) literal
`linkedin.com/in/` first occurs at the token's position, the profile token
is recovered exactly. -/
theorem linkedin_roundtrip (a tok b : String)
    (hno : ∀ i, i < a.data.length → ciAt linkedinLit (a ++ tok ++ b).data i = false)
    (hm : linkedinMatchAt (a ++ tok ++ b).data a.data.length = some tok.data.length) :
    (_extract_contact_info (a ++ tok ++ b)).linkedin = some tok := by
  have hnone : ∀ i, i < a.data.length → linkedinMatchAt (a ++ tok ++ b).data i = none := by
    intro i hi
    unfold linkedinMatchAt
    rw [if_neg (by rw [hno i hi]; simp)]
  exact contact_search_extracts linkedinMatchAt a tok b hnone hm

/-- C9: round-trip of contact extraction.  For each of the three fields, a
document whose raw text contains exactly one well-formed token of that kind
(the email token is the unique place an `@` occurs, preceded by a non-local
character; the phone token carries the only digits, behind a non-`+`/`(`
character; the LinkedIn token is the first case-insensitive occurrence of
`linkedin.com/in/`) has that exact token recovered in the corresponding
contact field, the first match only; each field is extracted by an
independent pass. -/
theorem claim_C9 :
    (∀ a tok b : String, (∀ c ∈ a.data, c ≠ '@') →
      (∀ c, a.data.getLast? = some c → isLocalChar c = false) →
      emailMatchAt (a ++ tok ++ b).data a.data.length = some tok.data.length →
      (_extract_contact_info (a ++ tok ++ b)).email = some tok) ∧
    (∀ a tok b : String, (∀ c ∈ a.data, c.isDigit = false) →
      (∀ c, a.data.getLast? = some c → c ≠ '+' ∧ c ≠ '(') →
      phoneMatchAt (a ++ tok ++ b).data a.data.length = some tok.data.length →
      (_extract_contact_info (a ++ tok ++ b)).phone = some tok) ∧
    (∀ a tok b : String,
      (∀ i, i < a.data.length → ciAt linkedinLit (a ++ tok ++ b).data i = false) →
      linkedinMatchAt (a ++ tok ++ b).data a.data.length = some tok.data.length →
      (_extract_contact_info (a ++ tok ++ b)).linkedin = some tok) :=
  ⟨email_roundtrip, phone_roundtrip, linkedin_roundtrip⟩

/-- C9 witness: concrete documents with exactly one email, phone, and
LinkedIn token, each recovered verbatim. -/
theorem claim_C9_witness :
    (_extract_contact_info ("mail " ++ "john.doe@example.com" ++ " end")).email =
      some "john.doe@example.com" ∧
    (_extract_contact_info ("tel: " ++ "123-456-7890" ++ " ok")).phone =
      some "123-456-7890" ∧
    (_extract_contact_info ("see " ++ "linkedin.com/in/jane-doe" ++ " !")).linkedin =
      some "linkedin.com/in/jane-doe" :=
  ⟨claim_C9.1 "mail " "john.doe@example.com" " end" (by decide) (by decide) (by decide),
   claim_C9.2.1 "tel: " "123-456-7890" " ok" (by decide) (by decide) (by decide),
   claim_C9.2.2 "see " "linkedin.com/in/jane-doe" " !" (by decide) (by decide)⟩

end ResumeMatch
